import Mathlib

/-!
Formal model of the syntax-test developer tooling (`syntax-test_dev.py`).

The buffer is a flat list of characters; positions are absolute offsets.
A line region excludes its trailing newline, and a position sitting on a
newline character belongs to the line that the newline terminates, which is
how the host editor resolves `view.line(pos)`.  Scope lookup and selector
scoring are host capabilities and enter the model as opaque function fields
of the view.  Python list indexing without a guard is modelled by
`Except String`, carrying the exception name raised on the failing access.
-/

namespace SyntaxTestDev

/-- The host editor's region type: a pair of positions; `begin`/`end_` sort
them, as the host does for possibly reversed regions. -/
structure Region where
  a : Nat
  b : Nat
deriving DecidableEq, Repr

def Region.begin (r : Region) : Nat := min r.a r.b

def Region.end_ (r : Region) : Nat := max r.a r.b


/-- Python's `\s` class over the ASCII range (space, tab, newline, carriage
return, vertical tab, form feed). -/
def pyIsSpace (c : Char) : Bool :=
  c = ' ' || c = '\t' || c = '\n' || c = '\r' || c.toNat = 11 || c.toNat = 12

/-- Python `str.split()` with no argument: split on whitespace runs and drop
empty pieces.  Structural accumulator so it evaluates in the kernel. -/
def pySplitAux : List Char → List Char → List (List Char)
  | [], acc => if acc.isEmpty then [] else [acc.reverse]
  | c :: cs, acc =>
    if pyIsSpace c then
      if acc.isEmpty then pySplitAux cs [] else acc.reverse :: pySplitAux cs []
    else pySplitAux cs (c :: acc)

def pySplit (s : String) : List String :=
  (pySplitAux s.data []).map String.mk

/-- Python string repetition `s * n`. -/
def pyRepeat (s : String) (n : Nat) : String :=
  String.mk (List.flatten (List.replicate n s.data))

/-- The host editor's view: buffer text, optional persisted file name,
primary selection, and the two injected host capabilities (scope lookup at a
position and selector scoring). -/
structure View where
  text : List Char
  fileName : Option String
  sel : Region
  scopeAt : Int → String
  scoreSelector : String → String → Nat

/-- Clamp a position into the buffer, as the host does. -/
def clampPos (cs : List Char) (pos : Nat) : Nat := min pos cs.length

/-- Start of the line containing `pos`: one past the last newline strictly
before `pos` (a position on a newline belongs to the line it terminates). -/
def lineBegin (cs : List Char) (pos : Nat) : Nat :=
  let p := clampPos cs pos
  p - ((cs.take p).reverse.takeWhile (fun c => !(c = '\n'))).length

/-- End of the line containing `pos`: the first newline at or after `pos`
(the line region excludes the newline itself). -/
def lineEnd (cs : List Char) (pos : Nat) : Nat :=
  let p := clampPos cs pos
  p + ((cs.drop p).takeWhile (fun c => !(c = '\n'))).length

/-- `view.line(pos)`. -/
def lineRegionAt (cs : List Char) (pos : Nat) : Region :=
  ⟨lineBegin cs pos, lineEnd cs pos⟩

/-- `view.substr(region)`. -/
def substrOf (cs : List Char) (r : Region) : List Char :=
  (cs.take r.end_).drop r.begin

/-- The column component of `view.rowcol(pos)`. -/
def colOf (cs : List Char) (pos : Nat) : Nat :=
  pos - lineBegin cs pos

/-- The first-line declaration parser, embedding
`re.match(r'^(\S+)\s+SYNTAX TEST\s+"[^"]+"\s*(\S+)?$', first_line)`.
Every boundary in the pattern is between a greedy class and a character that
the class rejects, so maximal munch is exact and no backtracking arises. -/
def parse_declaration (cs : List Char) : Option String × Option String :=
  let t1 := cs.takeWhile (fun c => !(pyIsSpace c))
  let r1 := cs.dropWhile (fun c => !(pyIsSpace c))
  if t1.isEmpty then (none, none) else
  let w1 := r1.takeWhile pyIsSpace
  let r2 := r1.dropWhile pyIsSpace
  if w1.isEmpty then (none, none) else
  if (String.data "SYNTAX TEST").isPrefixOf r2 then
    let r3 := r2.drop 11
    let w2 := r3.takeWhile pyIsSpace
    let r4 := r3.dropWhile pyIsSpace
    if w2.isEmpty then (none, none) else
    match r4 with
    | '"' :: r5 =>
      let d := r5.takeWhile (fun c => !(c = '"'))
      let r6 := r5.dropWhile (fun c => !(c = '"'))
      if d.isEmpty then (none, none) else
      match r6 with
      | '"' :: r7 =>
        let r8 := r7.dropWhile pyIsSpace
        let t2 := r8.takeWhile (fun c => !(pyIsSpace c))
        let r9 := r8.dropWhile (fun c => !(pyIsSpace c))
        if r9.isEmpty then
          (some (String.mk t1), if t2.isEmpty then none else some (String.mk t2))
        else (none, none)
      | _ => (none, none)
    | _ => (none, none)
  else (none, none)

/-- `get_syntax_test_tokens`: parse the first line of the view, guarded by
the 1000-character cutoff. -/
def get_syntax_test_tokens (v : View) : Option String × Option String :=
  let line := lineRegionAt v.text 0
  if line.end_ - line.begin < 1000 then
    parse_declaration (substrOf v.text line)
  else (none, none)

/-- `os.path.basename` on a POSIX path. -/
def basename (s : String) : String :=
  String.mk ((s.data.reverse.takeWhile (fun c => !(c = '/'))).reverse)

/-- `is_syntax_test_file`. -/
def is_syntax_test_file (v : View) : Bool :=
  match v.fileName with
  | some name => (basename name).startsWith "syntax_test_"
  | none => (get_syntax_test_tokens v).1.isSome

/-- `AssertionLineDetails`.  The comment-marker match is reduced to the two
fields the code reads from the regex match object: `start(1)` (the leading
whitespace width) and `end()` (one past the matched start token). -/
structure AssertionLineDetails where
  comment_marker_match : Option (Nat × Nat)
  assertion_colrange : Option (Nat × Nat)
  line_region : Option Region
deriving DecidableEq, Repr

/-- Lines 55-65 of the source: match `^\s*(token)` against the line text,
then `\s*(?:(<-)|(\^+))` against the remainder.  The start token comes from
the `(\S+)` group of the declaration regex, so it is nonempty and starts
with a non-whitespace character; maximal munch of `\s*` is therefore exact. -/
def assertion_details_of_line (token : String) (cs : List Char) :
    Option (Nat × Nat) × Option (Nat × Nat) :=
  let w1 := (cs.takeWhile pyIsSpace).length
  let afterWs := cs.drop w1
  if token.data.isPrefixOf afterWs then
    let mStart := w1
    let mEnd := w1 + token.length
    let rest := cs.drop mEnd
    let w2 := (rest.takeWhile pyIsSpace).length
    let rest2 := rest.drop w2
    let colrange :=
      if rest2.take 2 = ['<', '-'] then some (mStart, mStart)
      else
        let carets := (rest2.takeWhile (fun c => c = '^')).length
        if 0 < carets then some (mEnd + w2, mEnd + w2 + carets) else none
    (some (mStart, mEnd), colrange)
  else (none, none)

/-- `get_details_of_test_assertion_line`. -/
def get_details_of_test_assertion_line (v : View) (pos : Nat) : AssertionLineDetails :=
  if !(is_syntax_test_file v) then ⟨none, none, none⟩
  else
    match (get_syntax_test_tokens v).1 with
    | none => ⟨none, none, none⟩
    | some token =>
      let reg := lineRegionAt v.text pos
      let (marker, colrange) := assertion_details_of_line token (substrOf v.text reg)
      ⟨marker, colrange, some reg⟩

/-- The upward walk of `get_details_of_line_being_tested`, written with an
explicit fuel bound (`none` = fuel exhausted; the loop body never needs more
than `pos + 1` iterations, see `walker_loop_isSome`).  The Python loop body
appends and continues when the line has an assertion colrange, or on the
first iteration when it at least carries the comment marker; otherwise it
breaks, returning the accumulated run and the stopping line's region.  The
loop condition `pos >= 0` fails exactly when the just-examined line starts
at position 0.  A missing `line_region` would crash Python on
`.begin()` (`AttributeError`). -/
def walker_loop (v : View) :
    Nat → Nat → Bool → List AssertionLineDetails →
    Option (Except String (List AssertionLineDetails × Region))
  | 0, _, _, _ => none
  | fuel + 1, pos, first, acc =>
    let details := get_details_of_test_assertion_line v pos
    match details.line_region with
    | none => some (.error "AttributeError")
    | some reg =>
      if details.assertion_colrange.isSome || (first && details.comment_marker_match.isSome) then
        if reg.begin = 0 then some (.ok (acc ++ [details], reg))
        else walker_loop v fuel (reg.begin - 1) false (acc ++ [details])
      else some (.ok (acc, reg))

/-- `get_details_of_line_being_tested`.  Returns `.ok none` for the Python
`(None, None)` result on non-test files. -/
def get_details_of_line_being_tested (v : View) :
    Except String (Option (List AssertionLineDetails × Region)) :=
  if !(is_syntax_test_file v) then .ok none
  else
    let pos := v.sel.begin
    match walker_loop v (pos + 1) pos true [] with
    | none => .error "NONTERMINATION"
    | some (.error e) => .error e
    | some (.ok r) => .ok (some r)

/-- Lines 139-141 of the source: `view.replace(edit, view.sel()[0], character)`
followed by reading `view.sel()[0]`.  The host keeps a replaced non-empty
selection spanning the inserted text; an empty selection (a caret) ends up
after the inserted text, as when typing. -/
def apply_trigger (v : View) (character : String) : View :=
  let a := v.sel.begin
  let b := v.sel.end_
  let text1 := v.text.take a ++ character.data ++ v.text.drop b
  let sel1 : Region :=
    if a = b then ⟨a + character.data.length, a + character.data.length⟩
    else ⟨a, a + character.data.length⟩
  { v with text := text1, sel := sel1 }

/-- Lines 146-151: the end-token suffix.  `lines[0]` on an empty run raises
`IndexError` (only reached when an end token is declared, by `and`
short-circuit). -/
def suggest_end_token (v1 : View) (lines : List AssertionLineDetails) :
    Except String String :=
  match (get_syntax_test_tokens v1).2 with
  | none => .ok ""
  | some t =>
    match lines with
    | [] => .error "IndexError"
    | l0 :: _ =>
      match l0.line_region with
      | none => .error "AttributeError"
      | some r => .ok (if v1.sel.end_ = r.end_ then " " ++ t else "")

/-- Lines 157-162: pick the scan start column.  `lines[0].assertion_colrange
or (-1, -1)` substitutes the sentinel for a missing colrange; a zero-width
pair switches to the single-column mode and drops the nearest line from the
run.  `lines[0]` on an empty run raises `IndexError`. -/
def suggest_branch (lines : List AssertionLineDetails) (col0 : Int) :
    Except String (Int × Bool × List AssertionLineDetails) :=
  match lines with
  | [] => .error "IndexError"
  | l0 :: rest =>
    let acr : Int × Int :=
      match l0.assertion_colrange with
      | some (x, y) => ((x : Int), (y : Int))
      | none => (-1, -1)
    if acr.1 = acr.2 then .ok (acr.2, true, rest)
    else .ok (col0, false, lines)

/-- The body of the scan loop of lines 164-173: at each position read the
scope, stop at the first scope differing from the reference, otherwise count
the position; in single-column mode stop after the first position. -/
def scan_loop (scopeAt : Int → String) (testAtStart : Bool) :
    Int → Nat → List String → Nat → List String × Nat
  | _, 0, scopes, length => (scopes, length)
  | lo, n + 1, scopes, length =>
    let scope := scopeAt lo
    match scopes with
    | s0 :: _ =>
      if scope ≠ s0 then (scopes, length)
      else if testAtStart then (scopes, length + 1)
      else scan_loop scopeAt testAtStart (lo + 1) n scopes (length + 1)
    | [] =>
      if testAtStart then ([scope], length + 1)
      else scan_loop scopeAt testAtStart (lo + 1) n [scope] (length + 1)

/-- Lines 164-173: scan `range(line.begin() + col, line.end() + 1)` — note
the bound one past the line's end position. -/
def suggest_scan (scopeAt : Int → String) (line : Region) (col : Int)
    (testAtStart : Bool) : List String × Nat :=
  let lo : Int := (line.begin : Int) + col
  let n : Nat := (((line.end_ : Int) + 1) - lo).toNat
  scan_loop scopeAt testAtStart lo n [] 0

/-- The loop of lines 178-181: append each scope under the previous
assertion's colrange that is not already collected. -/
def merge_loop (scopeAt : Int → String) : Int → Nat → List String → List String
  | _, 0, scopes => scopes
  | p, n + 1, scopes =>
    let scope := scopeAt p
    merge_loop scopeAt (p + 1) n (if scope ∈ scopes then scopes else scopes ++ [scope])

/-- Lines 176-181: merge the scopes of the previous assertion line's
colrange; skipped entirely when the run (after the branch step) is empty or
in single-column mode.  Unpacking a missing colrange would raise
`TypeError` in Python. -/
def suggest_merge (scopeAt : Int → String) (line : Region)
    (lines2 : List AssertionLineDetails) (testAtStart : Bool)
    (scopes : List String) : Except String (List String) :=
  match lines2 with
  | [] => .ok scopes
  | l0 :: _ =>
    if testAtStart then .ok scopes
    else
      match l0.assertion_colrange with
      | none => .error "TypeError"
      | some (cs, ce) => .ok (merge_loop scopeAt ((line.begin : Int) + cs) (ce - cs) scopes)

/-- Lines 186-197: keep the components of the first collected scope that
score positively against every collected scope, then drop the leading one
when it equals the leading component of the base scope.  Both `scopes[0]`
and `shared_scopes[0]` (and `view.scope_name(0).split()[0]`) are unguarded
list indexings that raise `IndexError` on an empty list. -/
def compute_shared_scope (score : String → String → Nat) (baseScope : String)
    (scopes : List String) : Except String String :=
  match scopes with
  | [] => .error "IndexError"
  | s0 :: _ =>
    let shared_scopes :=
      (pySplit s0).filter (fun check => scopes.all (fun sc => decide (0 < score sc check)))
    match shared_scopes with
    | [] => .error "IndexError"
    | h :: _ =>
      match pySplit baseScope with
      | [] => .error "IndexError"
      | b0 :: _ =>
        let start_index := if h = b0 then 1 else 0
        .ok (String.intercalate " " (shared_scopes.drop start_index))

/-- `SuggestSyntaxTest.run`: the full suggestion command.  The observable
result is the final buffer text and selection, or the exception raised.
A `None` run from the walker would crash on the first `lines[0]`
subscript (`TypeError`), but the test-file guard makes that unreachable. -/
def SuggestSyntaxTest.run (v : View) (character : String) :
    Except String (List Char × Region) :=
  let v1 := apply_trigger v character
  let insert_at := v1.sel.begin
  if !(is_syntax_test_file v1) then .ok (v1.text, v1.sel)
  else
    match get_details_of_line_being_tested v1 with
    | .error e => .error e
    | .ok none => .error "TypeError"
    | .ok (some (lines, line)) =>
      match suggest_end_token v1 lines with
      | .error e => .error e
      | .ok end_token =>
        let col0 : Int := (colOf v1.text insert_at : Int)
        match suggest_branch lines col0 with
        | .error e => .error e
        | .ok (col, testAtStart, lines2) =>
          let sl := suggest_scan v1.scopeAt line col testAtStart
          match suggest_merge v1.scopeAt line lines2 testAtStart sl.1 with
          | .error e => .error e
          | .ok scopes2 =>
            match compute_shared_scope v1.scoreSelector (v1.scopeAt 0) scopes2 with
            | .error e => .error e
            | .ok scope =>
              let length := sl.2
              let text2 :=
                if v1.sel.begin = v1.sel.end_ then v1.text
                else v1.text.take v1.sel.begin ++ v1.text.drop v1.sel.end_
              let insText := pyRepeat character length ++ " " ++ scope ++ end_token
              let text3 := text2.take insert_at ++ insText.data ++ text2.drop insert_at
              let selF : Region :=
                ⟨insert_at + length, insert_at + length + (" " ++ scope ++ end_token).length⟩
              .ok (text3, selF)

/-- `re.match(r'^\^+$', s)`: a nonempty caret run spanning the whole string,
where Python's `$` also accepts a position just before one trailing
newline. -/
def matchAllCarets (cs : List Char) : Bool :=
  let rest := cs.dropWhile (fun c => c = '^')
  decide (0 < (cs.takeWhile (fun c => c = '^')).length) &&
    (rest.isEmpty || decide (rest = ['\n']))

/-- `HighlightTestViewEventListener.on_selection_modified_async`, up to the
highlight-region decision: `.ok none` models erasing the highlight,
`.ok (some r)` models drawing it over `r`. -/
def HighlightTestViewEventListener.on_selection_modified_async (v : View) :
    Except String (Option Region) :=
  let cursor0 := v.sel
  let cursor : Region :=
    if cursor0.begin = cursor0.end_ then ⟨cursor0.begin, cursor0.end_ + 1⟩ else cursor0
  let highlight_only_cursor : Bool :=
    if cursor0.begin = cursor0.end_ then false
    else matchAllCarets (substrOf v.text cursor0)
  match get_details_of_line_being_tested v with
  | .error e => .error e
  | .ok none => .ok none
  | .ok (some (lines, line)) =>
    match lines.head? with
    | none => .ok none
    | some l0 =>
      match l0.assertion_colrange with
      | none => .ok none
      | some (col_start0, col_end0) =>
        let cols : Nat × Nat :=
          if highlight_only_cursor then (colOf v.text cursor.begin, colOf v.text cursor.end_)
          else if col_end0 = col_start0 then (col_start0, col_end0 + 1)
          else (col_start0, col_end0)
        .ok (some ⟨line.begin + cols.1, line.begin + cols.2⟩)

/-- Modelled from the spec claim C3 for comparison: the length of the
maximal contiguous run of identical-scope columns starting at the given
column and stopping at the end of the tested line (exclusive bound
`line.end()`), as the claim words it. -/
def claimed_run_length (scopeAt : Int → String) (line : Region) (col : Int) : Nat :=
  let lo : Int := (line.begin : Int) + col
  let n : Nat := ((line.end_ : Int) - lo).toNat
  (scan_loop scopeAt false lo n [] 0).2

/-! Concrete views used to evaluate the commands on explicit inputs.
`\x22` is the double-quote character inside the declaration lines. -/

/-- A constant scope assignment used by the concrete views. -/
def constScope : Int → String := fun _ => "source.test"

/-- A syntax-test file whose cursor sits on a plain code line (`foo`), so the
collected assertion run is empty. -/
def cexViewEmptyRun : View :=
  { text := String.data "# SYNTAX TEST \x22x\x22\nfoo"
    fileName := none
    sel := ⟨18, 18⟩
    scopeAt := constScope
    scoreSelector := fun _ _ => 1 }

/-- A syntax-test file with the cursor at the end of a comment line `# `;
its selector-scoring capability returns zero for every query, so the
shared-scope reduction keeps no component. -/
def cexViewZeroScore : View :=
  { text := String.data "# SYNTAX TEST \x22x\x22\nfoo\n# "
    fileName := none
    sel := ⟨24, 24⟩
    scopeAt := constScope
    scoreSelector := fun _ _ => 0 }

/-- A syntax-test file whose nearest assertion is a `<-` marker whose token
column (3) exceeds the tested line `ab` (length 2). -/
def cexViewShortLine : View :=
  { text := String.data "# SYNTAX TEST \x22x\x22\nab\n   # <-"
    fileName := none
    sel := ⟨28, 28⟩
    scopeAt := constScope
    scoreSelector := fun _ _ => 1 }

/-- A syntax-test file whose selection covers the caret of `# ^` plus the
trailing newline, so the selection text is `^\n`. -/
def cexViewCaretNewline : View :=
  { text := String.data "# SYNTAX TEST \x22x\x22\nfoo\n# ^\n"
    fileName := none
    sel := ⟨24, 26⟩
    scopeAt := constScope
    scoreSelector := fun _ _ => 1 }

/-- A buffer that is not a syntax-test file at all. -/
def plainView : View :=
  { text := String.data "hello"
    fileName := none
    sel := ⟨0, 0⟩
    scopeAt := constScope
    scoreSelector := fun _ _ => 1 }

/-- The number of consecutive positions from `lo` whose scope equals `ref`,
capped at `n`; the functional core of the scan loop. -/
def matchRun (scopeAt : Int → String) (ref : String) : Int → Nat → Nat
  | _, 0 => 0
  | lo, n + 1 => if scopeAt lo = ref then matchRun scopeAt ref (lo + 1) n + 1 else 0

/-- The first line of a buffer (used to state the declaration-parsing
claim; equals `substr(view.line(0))`). -/
def firstLineOf (v : View) : List Char :=
  v.text.takeWhile (fun c => !(c = '\n'))

/-- The declaration-line shape `<token> SYNTAX TEST "<desc>" [<endtoken>]`
of the spec, as a decomposition of the line into its parts. -/
def DeclShape (cs : List Char) (t : List Char) (e : Option (List Char)) : Prop :=
  ∃ w1 w2 w3 d,
    t ≠ [] ∧ (∀ c ∈ t, pyIsSpace c = false) ∧
    w1 ≠ [] ∧ (∀ c ∈ w1, pyIsSpace c = true) ∧
    w2 ≠ [] ∧ (∀ c ∈ w2, pyIsSpace c = true) ∧
    (∀ c ∈ w3, pyIsSpace c = true) ∧
    d ≠ [] ∧ (∀ c ∈ d, c ≠ '"') ∧
    (match e with
     | some et =>
        et ≠ [] ∧ (∀ c ∈ et, pyIsSpace c = false) ∧
        cs = t ++ (w1 ++ (String.data "SYNTAX TEST"
          ++ (w2 ++ '"' :: (d ++ '"' :: (w3 ++ et)))))
     | none =>
        cs = t ++ (w1 ++ (String.data "SYNTAX TEST" ++ (w2 ++ '"' :: (d ++ '"' :: w3)))))

/-! ### List helper lemmas -/

theorem Region.begin_le_end_ (r : Region) : r.begin ≤ r.end_ :=
  min_le_max

theorem take_length_takeWhile (p : Char → Bool) (l : List Char) :
    l.take ((l.takeWhile p).length) = l.takeWhile p := by
  induction l with
  | nil => simp
  | cons c cs ih =>
    by_cases h : p c
    · simp [List.takeWhile_cons_of_pos h, ih]
    · simp [List.takeWhile_cons_of_neg h]

/-- Splitting `takeWhile`/`dropWhile` over an append at a boundary where the
predicate flips. -/
theorem takeWhile_split (p : Char → Bool) (xs ys : List Char)
    (h1 : ∀ c ∈ xs, p c = true)
    (h2 : ys = [] ∨ ∃ c t, ys = c :: t ∧ p c = false) :
    (xs ++ ys).takeWhile p = xs ∧ (xs ++ ys).dropWhile p = ys := by
  induction xs with
  | nil =>
    rcases h2 with rfl | ⟨c, t, rfl, hc⟩
    · simp
    · simp only [List.nil_append]
      exact ⟨List.takeWhile_cons_of_neg (by simp [hc]),
             List.dropWhile_cons_of_neg (by simp [hc])⟩
  | cons x xs ih =>
    have hx : p x = true := h1 x (by simp)
    have hrec := ih (fun c hc => h1 c (by simp [hc]))
    refine ⟨?_, ?_⟩
    · simpa [List.takeWhile_cons_of_pos hx] using hrec.1
    · simpa [List.dropWhile_cons_of_pos hx] using hrec.2

/-! ### Line-primitive lemmas -/

theorem lineBegin_le (cs : List Char) (pos : Nat) : lineBegin cs pos ≤ pos :=
  le_trans (Nat.sub_le _ _) (min_le_left _ _)

theorem lineBegin_le_lineEnd (cs : List Char) (pos : Nat) :
    lineBegin cs pos ≤ lineEnd cs pos :=
  le_trans (Nat.sub_le _ _) (Nat.le_add_right _ _)

theorem lineRegionAt_begin (cs : List Char) (pos : Nat) :
    (lineRegionAt cs pos).begin = lineBegin cs pos := by
  simp [lineRegionAt, Region.begin, Nat.min_eq_left (lineBegin_le_lineEnd cs pos)]

theorem lineRegionAt_end (cs : List Char) (pos : Nat) :
    (lineRegionAt cs pos).end_ = lineEnd cs pos := by
  simp [lineRegionAt, Region.end_, Nat.max_eq_right (lineBegin_le_lineEnd cs pos)]

/-- A line-details record carries a region only for the line that was looked
up at the queried position. -/
theorem details_line_region (v : View) (pos : Nat) (reg : Region)
    (h : (get_details_of_test_assertion_line v pos).line_region = some reg) :
    reg = lineRegionAt v.text pos := by
  unfold get_details_of_test_assertion_line at h
  split at h
  · simp at h
  · split at h
    · simp at h
    · simp only at h
      exact (Option.some.inj h).symm

/-! ### Walker lemmas -/

/-- Fuel `pos + 1` always suffices for the upward walk: the next examined
position is the predecessor of the current line's start, which is at most
`pos`. -/
theorem walker_loop_isSome (v : View) :
    ∀ (fuel pos : Nat) (first : Bool) (acc : List AssertionLineDetails),
      pos < fuel → (walker_loop v fuel pos first acc).isSome = true := by
  intro fuel
  induction fuel with
  | zero => intro pos first acc h; omega
  | succ f ih =>
    intro pos first acc _h
    rw [walker_loop]
    cases hreg : (get_details_of_test_assertion_line v pos).line_region with
    | none => simp
    | some reg =>
      simp only
      split
      · split
        · simp
        · rename_i hb
          apply ih
          have h1 : reg = lineRegionAt v.text pos := details_line_region v pos reg hreg
          have h2 : reg.begin ≤ pos := by
            rw [h1, lineRegionAt_begin]; exact lineBegin_le v.text pos
          omega
      · simp

/-- Every element that the walk appends after its first iteration carries an
assertion colrange. -/
theorem walker_loop_suffix (v : View) :
    ∀ (fuel pos : Nat) (acc lst : List AssertionLineDetails) (reg : Region),
      walker_loop v fuel pos false acc = some (.ok (lst, reg)) →
      ∃ suf, lst = acc ++ suf ∧ ∀ d ∈ suf, d.assertion_colrange.isSome = true := by
  intro fuel
  induction fuel with
  | zero => intro pos acc lst reg h; simp [walker_loop] at h
  | succ f ih =>
    intro pos acc lst reg h
    rw [walker_loop] at h
    cases hreg : (get_details_of_test_assertion_line v pos).line_region with
    | none => rw [hreg] at h; simp at h
    | some r =>
      rw [hreg] at h
      simp only [Bool.false_and, Bool.or_false] at h
      by_cases hcr : (get_details_of_test_assertion_line v pos).assertion_colrange.isSome = true
      · rw [if_pos hcr] at h
        by_cases hb : r.begin = 0
        · rw [if_pos hb] at h
          simp only [Option.some.injEq, Except.ok.injEq, Prod.mk.injEq] at h
          exact ⟨[get_details_of_test_assertion_line v pos], h.1.symm, by
            intro d hd; simp at hd; subst hd; exact hcr⟩
        · rw [if_neg hb] at h
          obtain ⟨suf, hsuf, hall⟩ := ih _ _ _ _ h
          exact ⟨get_details_of_test_assertion_line v pos :: suf, by
            simpa using hsuf, by
            intro d hd
            rcases List.mem_cons.mp hd with rfl | hmem
            · exact hcr
            · exact hall d hmem⟩
      · rw [if_neg hcr] at h
        simp only [Option.some.injEq, Except.ok.injEq, Prod.mk.injEq] at h
        exact ⟨[], by simp [h.1.symm], by simp⟩

/-! ### Scan-loop lemmas -/

theorem scan_loop_cons (s : Int → String) (ref : String) :
    ∀ (n : Nat) (lo : Int) (t : List String) (len : Nat),
      scan_loop s false lo n (ref :: t) len = (ref :: t, len + matchRun s ref lo n) := by
  intro n
  induction n with
  | zero => intro lo t len; simp [scan_loop, matchRun]
  | succ m ih =>
    intro lo t len
    rw [scan_loop, matchRun]
    by_cases h : s lo = ref
    · simp only [h, ite_true, if_neg (by simp : ¬ ref ≠ ref)]
      rw [ih]
      simp [Nat.add_assoc, Nat.add_comm 1]
    · simp [h]

theorem scan_loop_nil (s : Int → String) (lo : Int) (m : Nat) :
    scan_loop s false lo (m + 1) [] 0 = ([s lo], 1 + matchRun s (s lo) (lo + 1) m) := by
  rw [scan_loop]
  rw [if_neg (by simp : ¬ ((false : Bool) = true)), scan_loop_cons]

theorem scan_loop_single (s : Int → String) (lo : Int) (m : Nat) :
    scan_loop s true lo (m + 1) [] 0 = ([s lo], 1) := by
  rw [scan_loop]
  simp

theorem matchRun_le (s : Int → String) (ref : String) :
    ∀ (n : Nat) (lo : Int), matchRun s ref lo n ≤ n := by
  intro n
  induction n with
  | zero => intro lo; simp [matchRun]
  | succ m ih =>
    intro lo
    rw [matchRun]
    by_cases h : s lo = ref
    · simpa [h] using ih (lo + 1)
    · simp [h]

theorem matchRun_eq_ref (s : Int → String) (ref : String) :
    ∀ (n : Nat) (lo : Int) (i : Nat), i < matchRun s ref lo n → s (lo + i) = ref := by
  intro n
  induction n with
  | zero => intro lo i hi; simp [matchRun] at hi
  | succ m ih =>
    intro lo i hi
    rw [matchRun] at hi
    by_cases h : s lo = ref
    · rw [if_pos h] at hi
      match i with
      | 0 => simpa using h
      | j + 1 =>
        have : s ((lo + 1) + j) = ref := ih (lo + 1) j (by omega)
        have harith : lo + ((j : Int) + 1) = (lo + 1) + j := by ring
        rw [show ((j + 1 : Nat) : Int) = (j : Int) + 1 by push_cast; ring, harith]
        exact this
    · rw [if_neg h] at hi; omega

theorem matchRun_stop (s : Int → String) (ref : String) :
    ∀ (n : Nat) (lo : Int),
      matchRun s ref lo n = n ∨ s (lo + matchRun s ref lo n) ≠ ref := by
  intro n
  induction n with
  | zero => intro lo; left; simp [matchRun]
  | succ m ih =>
    intro lo
    rw [matchRun]
    by_cases h : s lo = ref
    · rw [if_pos h]
      rcases ih (lo + 1) with he | hne
      · left; omega
      · right
        have harith : lo + ((matchRun s ref (lo + 1) m : Int) + 1)
            = (lo + 1) + matchRun s ref (lo + 1) m := by ring
        rw [show ((matchRun s ref (lo + 1) m + 1 : Nat) : Int)
              = (matchRun s ref (lo + 1) m : Int) + 1 by push_cast; ring, harith]
        exact hne
    · rw [if_neg h]
      right
      simpa using h

/-! ### Declaration-parser lemmas -/

/-- The parser returns either a full failure or a matched start token. -/
theorem parse_declaration_cases (cs : List Char) :
    parse_declaration cs = (none, none) ∨
      ∃ t e, parse_declaration cs = (some t, e) := by
  simp only [parse_declaration]
  repeat' split
  all_goals first
    | exact Or.inl rfl
    | exact Or.inr ⟨_, _, rfl⟩

theorem nonempty_head_shape (p : Char → Bool) {l : List Char}
    (hne : l ≠ []) (hall : ∀ c ∈ l, p c = false) (rest : List Char) :
    l ++ rest = [] ∨ ∃ c t, l ++ rest = c :: t ∧ p c = false := by
  cases l with
  | nil => exact absurd rfl hne
  | cons c t => exact Or.inr ⟨c, t ++ rest, rfl, hall c (by simp)⟩

/-- The declaration parser on a line with the well-formed fixed prefix
`<token><ws>SYNTAX TEST<ws>"<desc>"` followed by an arbitrary remainder. -/
theorem parse_decl_front (t w1 w2 d r7 : List Char)
    (ht : t ≠ []) (htns : ∀ c ∈ t, pyIsSpace c = false)
    (hw1 : w1 ≠ []) (hw1s : ∀ c ∈ w1, pyIsSpace c = true)
    (hw2 : w2 ≠ []) (hw2s : ∀ c ∈ w2, pyIsSpace c = true)
    (hd : d ≠ []) (hdq : ∀ c ∈ d, c ≠ '"') :
    parse_declaration
        (t ++ (w1 ++ (String.data "SYNTAX TEST" ++ (w2 ++ '"' :: (d ++ '"' :: r7)))))
      = (if ((r7.dropWhile pyIsSpace).dropWhile (fun c => !(pyIsSpace c))).isEmpty then
          (some (String.mk t),
            if ((r7.dropWhile pyIsSpace).takeWhile (fun c => !(pyIsSpace c))).isEmpty
            then none
            else some (String.mk ((r7.dropWhile pyIsSpace).takeWhile (fun c => !(pyIsSpace c)))))
        else (none, none)) := by
  have hs1 := takeWhile_split (fun c => !(pyIsSpace c)) t
      (w1 ++ (String.data "SYNTAX TEST" ++ (w2 ++ '"' :: (d ++ '"' :: r7))))
      (fun c hc => by simp [htns c hc])
      (nonempty_head_shape (fun c => !(pyIsSpace c)) hw1
        (fun c hc => by simp [hw1s c hc]) _)
  have hs2 := takeWhile_split pyIsSpace w1
      (String.data "SYNTAX TEST" ++ (w2 ++ '"' :: (d ++ '"' :: r7)))
      hw1s
      (Or.inr ⟨'S', String.data "YNTAX TEST" ++ (w2 ++ '"' :: (d ++ '"' :: r7)),
        rfl, by decide⟩)
  have hpre : (String.data "SYNTAX TEST").isPrefixOf
      (String.data "SYNTAX TEST" ++ (w2 ++ '"' :: (d ++ '"' :: r7))) = true :=
    List.isPrefixOf_iff_prefix.mpr (List.prefix_append _ _)
  have hdrop : (String.data "SYNTAX TEST" ++ (w2 ++ '"' :: (d ++ '"' :: r7))).drop 11
      = w2 ++ '"' :: (d ++ '"' :: r7) := by
    rw [show (11 : Nat) = (String.data "SYNTAX TEST").length from rfl]
    exact List.drop_left _ _
  have hs3 := takeWhile_split pyIsSpace w2 ('"' :: (d ++ '"' :: r7))
      hw2s
      (Or.inr ⟨'"', d ++ '"' :: r7, rfl, by decide⟩)
  have hs4 := takeWhile_split (fun c => !(c = '"')) d ('"' :: r7)
      (fun c hc => by simp [hdq c hc])
      (Or.inr ⟨'"', r7, rfl, by simp⟩)
  simp only [parse_declaration, hs1.1, hs1.2, hs2.1, hs2.2, hpre, hdrop, hs3.1, hs3.2,
    hs4.1, hs4.2, if_true]
  rw [if_neg (by simp [ht]), if_neg (by simp [hw1]), if_neg (by simp [hw2]),
    if_neg (by simp [hd])]

theorem all_takeWhile (p : Char → Bool) (l : List Char) (h : ∀ c ∈ l, p c = true) :
    l.takeWhile p = l ∧ l.dropWhile p = [] := by
  have := takeWhile_split p l [] h (Or.inl rfl)
  simpa using this

theorem head_shape_self (p : Char → Bool) {l : List Char}
    (hne : l ≠ []) (hall : ∀ c ∈ l, p c = false) :
    l = [] ∨ ∃ c t, l = c :: t ∧ p c = false := by
  cases l with
  | nil => exact absurd rfl hne
  | cons c t => exact Or.inr ⟨c, t, rfl, hall c (by simp)⟩

/-- A line of declaration shape parses to exactly its token and optional end
token. -/
theorem parse_declaration_complete (cs t : List Char) (e : Option (List Char))
    (h : DeclShape cs t e) :
    parse_declaration cs = (some (String.mk t), Option.map String.mk e) := by
  cases e with
  | none =>
    obtain ⟨w1, w2, w3, d, ht, htns, hw1, hw1s, hw2, hw2s, hw3s, hd, hdq, hrest⟩ := h
    replace hrest : cs = t ++ (w1 ++ (String.data "SYNTAX TEST"
        ++ (w2 ++ '"' :: (d ++ '"' :: w3)))) := hrest
    subst hrest
    rw [parse_decl_front t w1 w2 d w3 ht htns hw1 hw1s hw2 hw2s hd hdq]
    rw [(all_takeWhile pyIsSpace w3 hw3s).2]
    simp
  | some et =>
    obtain ⟨w1, w2, w3, d, ht, htns, hw1, hw1s, hw2, hw2s, hw3s, hd, hdq, het, hetns, hrest⟩ := h
    replace hrest : cs = t ++ (w1 ++ (String.data "SYNTAX TEST"
        ++ (w2 ++ '"' :: (d ++ '"' :: (w3 ++ et))))) := hrest
    subst hrest
    rw [parse_decl_front t w1 w2 d (w3 ++ et) ht htns hw1 hw1s hw2 hw2s hd hdq]
    rw [(takeWhile_split pyIsSpace w3 et hw3s (head_shape_self pyIsSpace het hetns)).2]
    rw [(all_takeWhile (fun c => !(pyIsSpace c)) et (fun c hc => by simp [hetns c hc])).1,
        (all_takeWhile (fun c => !(pyIsSpace c)) et (fun c hc => by simp [hetns c hc])).2]
    simp [het]

theorem mem_takeWhile_false {p : Char → Bool} {l : List Char} :
    ∀ c ∈ l.takeWhile (fun x => !(p x)), p c = false := by
  intro c hc
  have := List.mem_takeWhile_imp hc
  simpa using this

theorem ne_nil_of_isEmpty_false {l : List Char} (h : ¬ (l.isEmpty = true)) : l ≠ [] := by
  simpa [List.isEmpty_iff] using h

/-- A successful declaration parse exhibits the declaration shape. -/
theorem parse_declaration_sound (cs : List Char) (tS : String) (oe : Option String)
    (h : parse_declaration cs = (some tS, oe)) :
    ∃ t e, tS = String.mk t ∧ oe = Option.map String.mk e ∧ DeclShape cs t e := by
  simp only [parse_declaration] at h
  split at h
  · simp at h
  · split at h
    · simp at h
    · split at h
      · split at h
        · simp at h
        · split at h
          · split at h
            · simp at h
            · split at h
              · split at h
                · rename_i ht1 hw1e hpre hw2e ra r5 heq4 hde rb r7 heq6 h9
                  rw [Prod.mk.injEq] at h
                  obtain ⟨h1, h2⟩ := h
                  rw [Option.some.injEq] at h1
                  have e1 : cs = cs.takeWhile (fun c => !(pyIsSpace c))
                      ++ cs.dropWhile (fun c => !(pyIsSpace c)) :=
                    (List.takeWhile_append_dropWhile _ _).symm
                  have e2 : cs.dropWhile (fun c => !(pyIsSpace c))
                      = (cs.dropWhile (fun c => !(pyIsSpace c))).takeWhile pyIsSpace
                        ++ (cs.dropWhile (fun c => !(pyIsSpace c))).dropWhile pyIsSpace :=
                    (List.takeWhile_append_dropWhile _ _).symm
                  obtain ⟨rest, hr⟩ := List.isPrefixOf_iff_prefix.mp hpre
                  have hrestEq : ((cs.dropWhile (fun c => !(pyIsSpace c))).dropWhile
                      pyIsSpace).drop 11 = rest := by
                    rw [← hr,
                      show (11 : Nat)
                        = (['S', 'Y', 'N', 'T', 'A', 'X', ' ', 'T', 'E', 'S', 'T']
                            : List Char).length from rfl]
                    exact List.drop_left _ _
                  have e3 : (cs.dropWhile (fun c => !(pyIsSpace c))).dropWhile pyIsSpace
                      = ['S', 'Y', 'N', 'T', 'A', 'X', ' ', 'T', 'E', 'S', 'T']
                        ++ ((cs.dropWhile (fun c => !(pyIsSpace c))).dropWhile
                              pyIsSpace).drop 11 := by
                    rw [hrestEq, ← hr]
                  have e4 : ((cs.dropWhile (fun c => !(pyIsSpace c))).dropWhile
                        pyIsSpace).drop 11
                      = (((cs.dropWhile (fun c => !(pyIsSpace c))).dropWhile
                            pyIsSpace).drop 11).takeWhile pyIsSpace
                        ++ (((cs.dropWhile (fun c => !(pyIsSpace c))).dropWhile
                            pyIsSpace).drop 11).dropWhile pyIsSpace :=
                    (List.takeWhile_append_dropWhile _ _).symm
                  have e5 : r5 = r5.takeWhile (fun c => !(c = '"')) ++ ('"' :: r7) := by
                    conv_lhs => rw [← List.takeWhile_append_dropWhile
                      (fun c => !(c = '"')) r5]
                    rw [heq6]
                  have e7 : r7.dropWhile pyIsSpace
                      = (r7.dropWhile pyIsSpace).takeWhile (fun c => !(pyIsSpace c)) := by
                    conv_lhs => rw [← List.takeWhile_append_dropWhile
                      (fun c => !(pyIsSpace c)) (r7.dropWhile pyIsSpace)]
                    rw [List.isEmpty_iff.mp h9, List.append_nil]
                  have e6 : r7 = r7.takeWhile pyIsSpace
                      ++ ((r7.dropWhile pyIsSpace).takeWhile (fun c => !(pyIsSpace c))) := by
                    conv_lhs => rw [← List.takeWhile_append_dropWhile pyIsSpace r7]
                    rw [← e7]
                  have ecs : cs = cs.takeWhile (fun c => !(pyIsSpace c))
                      ++ ((cs.dropWhile (fun c => !(pyIsSpace c))).takeWhile pyIsSpace
                        ++ (String.data "SYNTAX TEST"
                          ++ ((((cs.dropWhile (fun c => !(pyIsSpace c))).dropWhile
                                pyIsSpace).drop 11).takeWhile pyIsSpace
                            ++ '"' :: (r5.takeWhile (fun c => !(c = '"'))
                              ++ '"' :: (r7.takeWhile pyIsSpace
                                ++ (r7.dropWhile pyIsSpace).takeWhile
                                    (fun c => !(pyIsSpace c))))))) := by
                    conv_lhs => rw [e1, e2, e3, e4, heq4, e5, e6]
                  have hw1mem : ∀ c ∈ (cs.dropWhile (fun c => !(pyIsSpace c))).takeWhile
                      pyIsSpace, pyIsSpace c = true := fun c hc => List.mem_takeWhile_imp hc
                  have hw2mem : ∀ c ∈ (((cs.dropWhile (fun c => !(pyIsSpace c))).dropWhile
                        pyIsSpace).drop 11).takeWhile pyIsSpace, pyIsSpace c = true :=
                    fun c hc => List.mem_takeWhile_imp hc
                  have hw3mem : ∀ c ∈ r7.takeWhile pyIsSpace, pyIsSpace c = true :=
                    fun c hc => List.mem_takeWhile_imp hc
                  have hdmem : ∀ c ∈ r5.takeWhile (fun c => !(c = '"')), c ≠ '"' := by
                    intro c hc
                    have := List.mem_takeWhile_imp hc
                    simpa using this
                  by_cases h2e : ((r7.dropWhile pyIsSpace).takeWhile
                      (fun c => !(pyIsSpace c))).isEmpty = true
                  · rw [if_pos h2e] at h2
                    refine ⟨cs.takeWhile (fun c => !(pyIsSpace c)), none, h1.symm,
                      h2.symm, ?_⟩
                    refine ⟨(cs.dropWhile (fun c => !(pyIsSpace c))).takeWhile pyIsSpace,
                      (((cs.dropWhile (fun c => !(pyIsSpace c))).dropWhile
                        pyIsSpace).drop 11).takeWhile pyIsSpace,
                      r7.takeWhile pyIsSpace,
                      r5.takeWhile (fun c => !(c = '"')),
                      ne_nil_of_isEmpty_false ht1, mem_takeWhile_false,
                      ne_nil_of_isEmpty_false hw1e, hw1mem,
                      ne_nil_of_isEmpty_false hw2e, hw2mem,
                      hw3mem,
                      ne_nil_of_isEmpty_false hde, hdmem, ?_⟩
                    simp only []
                    rw [List.isEmpty_iff.mp h2e, List.append_nil] at ecs
                    exact ecs
                  · rw [if_neg h2e] at h2
                    refine ⟨cs.takeWhile (fun c => !(pyIsSpace c)),
                      some ((r7.dropWhile pyIsSpace).takeWhile (fun c => !(pyIsSpace c))),
                      h1.symm, h2.symm, ?_⟩
                    refine ⟨(cs.dropWhile (fun c => !(pyIsSpace c))).takeWhile pyIsSpace,
                      (((cs.dropWhile (fun c => !(pyIsSpace c))).dropWhile
                        pyIsSpace).drop 11).takeWhile pyIsSpace,
                      r7.takeWhile pyIsSpace,
                      r5.takeWhile (fun c => !(c = '"')),
                      ne_nil_of_isEmpty_false ht1, mem_takeWhile_false,
                      ne_nil_of_isEmpty_false hw1e, hw1mem,
                      ne_nil_of_isEmpty_false hw2e, hw2mem,
                      hw3mem,
                      ne_nil_of_isEmpty_false hde, hdmem,
                      ne_nil_of_isEmpty_false h2e, mem_takeWhile_false, ecs⟩
                · simp at h
              · simp at h
          · simp at h
      · simp at h

theorem string_mk_inj {a b : List Char} (h : String.mk a = String.mk b) : a = b := by
  injection h

theorem option_map_mk_inj {a b : Option (List Char)}
    (h : Option.map String.mk a = Option.map String.mk b) : a = b := by
  cases a <;> cases b <;> simp_all
  exact string_mk_inj (by simpa using h)

/-! ### First-line lemmas -/

theorem lineRegionAt_zero (cs : List Char) :
    lineRegionAt cs 0 = ⟨0, (cs.takeWhile (fun c => !(c = '\n'))).length⟩ := by
  unfold lineRegionAt lineBegin lineEnd clampPos
  simp

theorem substr_firstLine (v : View) :
    substrOf v.text (lineRegionAt v.text 0) = firstLineOf v := by
  rw [lineRegionAt_zero]
  unfold substrOf firstLineOf Region.end_ Region.begin
  simp [take_length_takeWhile]

theorem get_tokens_eq (v : View) :
    get_syntax_test_tokens v
      = if (firstLineOf v).length < 1000 then parse_declaration (firstLineOf v)
        else (none, none) := by
  unfold get_syntax_test_tokens
  simp only []
  rw [substr_firstLine, lineRegionAt_zero]
  unfold firstLineOf Region.end_ Region.begin
  simp

/-! ### Assertion-line parsing lemma -/

/-- The assertion-line parser on a comment line `<ws1><token><ws2><rest2>`,
with `ws2` maximal, reduced to the branch on `rest2`. -/
theorem assertion_details_reduce (token : String) (ws1 ws2 rest2 : List Char)
    (htne : token.data ≠ [])
    (htns : ∀ c ∈ token.data, pyIsSpace c = false)
    (hw1s : ∀ c ∈ ws1, pyIsSpace c = true)
    (hw2s : ∀ c ∈ ws2, pyIsSpace c = true)
    (hmax : rest2 = [] ∨ ∃ c t, rest2 = c :: t ∧ pyIsSpace c = false) :
    assertion_details_of_line token (ws1 ++ (token.data ++ (ws2 ++ rest2)))
      = (some (ws1.length, ws1.length + token.length),
         if rest2.take 2 = ['<', '-'] then some (ws1.length, ws1.length)
         else if 0 < (rest2.takeWhile (fun c => c = '^')).length then
           some (ws1.length + token.length + ws2.length,
                 ws1.length + token.length + ws2.length
                   + (rest2.takeWhile (fun c => c = '^')).length)
         else none) := by
  have hs1 := takeWhile_split pyIsSpace ws1 (token.data ++ (ws2 ++ rest2)) hw1s
    (nonempty_head_shape pyIsSpace htne htns _)
  have htl : token.length = token.data.length := rfl
  have hdrop1 : (ws1 ++ (token.data ++ (ws2 ++ rest2))).drop ws1.length
      = token.data ++ (ws2 ++ rest2) := List.drop_left _ _
  have hpref : token.data.isPrefixOf (token.data ++ (ws2 ++ rest2)) = true :=
    List.isPrefixOf_iff_prefix.mpr (List.prefix_append _ _)
  have hdrop2 : (ws1 ++ (token.data ++ (ws2 ++ rest2))).drop (ws1.length + token.length)
      = ws2 ++ rest2 := by
    rw [htl, List.drop_append]
    exact List.drop_left _ _
  have hs2 := takeWhile_split pyIsSpace ws2 rest2 hw2s hmax
  have hdrop3 : (ws2 ++ rest2).drop ws2.length = rest2 := List.drop_left _ _
  simp only [assertion_details_of_line, hs1.1, hdrop1, hpref, if_true, hdrop2,
    hs2.1, hdrop3]

/-! ### Scan bridge lemmas -/

theorem suggest_scan_false_eq (s : Int → String) (line : Region) (col : Int)
    (h : (line.begin : Int) + col ≤ (line.end_ : Int)) :
    suggest_scan s line col false
      = ([s ((line.begin : Int) + col)],
         1 + matchRun s (s ((line.begin : Int) + col)) ((line.begin : Int) + col + 1)
             ((((line.end_ : Int) + 1) - ((line.begin : Int) + col)).toNat - 1)) := by
  simp only [suggest_scan]
  obtain ⟨m, hm⟩ : ∃ m,
      (((line.end_ : Int) + 1) - ((line.begin : Int) + col)).toNat = m + 1 := by
    have h1 : (1 : Int) ≤ ((line.end_ : Int) + 1) - ((line.begin : Int) + col) := by omega
    refine ⟨(((line.end_ : Int) + 1) - ((line.begin : Int) + col)).toNat - 1, ?_⟩
    omega
  rw [hm, scan_loop_nil]
  simp

theorem suggest_scan_true_one (s : Int → String) (line : Region) (col : Int)
    (h : (line.begin : Int) + col ≤ (line.end_ : Int)) :
    suggest_scan s line col true = ([s ((line.begin : Int) + col)], 1) := by
  simp only [suggest_scan]
  obtain ⟨m, hm⟩ : ∃ m,
      (((line.end_ : Int) + 1) - ((line.begin : Int) + col)).toNat = m + 1 := by
    refine ⟨(((line.end_ : Int) + 1) - ((line.begin : Int) + col)).toNat - 1, ?_⟩
    omega
  rw [hm, scan_loop_single]

theorem suggest_scan_true_empty (s : Int → String) (line : Region) (col : Int)
    (h : (line.end_ : Int) < (line.begin : Int) + col) :
    suggest_scan s line col true = ([], 0) := by
  simp only [suggest_scan]
  have h0 : (((line.end_ : Int) + 1) - ((line.begin : Int) + col)).toNat = 0 := by omega
  rw [h0]
  rfl

/-! ### Caret-selection regex characterization -/

theorem matchAllCarets_iff (cs : List Char) :
    matchAllCarets cs = true ↔
      ∃ n, 0 < n ∧ (cs = List.replicate n '^' ∨ cs = List.replicate n '^' ++ ['\n']) := by
  unfold matchAllCarets
  constructor
  · intro h
    simp only [Bool.and_eq_true, Bool.or_eq_true, decide_eq_true_eq,
      List.isEmpty_iff] at h
    obtain ⟨hpos, hrest⟩ := h
    refine ⟨(cs.takeWhile (fun c => c = '^')).length, hpos, ?_⟩
    have htake : cs.takeWhile (fun c => c = '^')
        = List.replicate ((cs.takeWhile (fun c => c = '^')).length) '^' :=
      List.eq_replicate_of_mem (fun b hb => by simpa using List.mem_takeWhile_imp hb)
    rcases hrest with h0 | h1
    · left
      conv_lhs => rw [← List.takeWhile_append_dropWhile (fun c => c = '^') cs]
      rw [h0, List.append_nil]
      conv_lhs => rw [htake]
    · right
      conv_lhs => rw [← List.takeWhile_append_dropWhile (fun c => c = '^') cs]
      rw [h1]
      conv_lhs => rw [htake]
  · rintro ⟨n, hn, rfl | rfl⟩
    · have hall := all_takeWhile (fun c => c = '^') (List.replicate n '^')
        (by intro c hc; simp [List.eq_of_mem_replicate hc])
      simp [hall.1, hall.2, hn]
    · have hsplit := takeWhile_split (fun c => c = '^') (List.replicate n '^') ['\n']
        (by intro c hc; simp [List.eq_of_mem_replicate hc])
        (Or.inr ⟨'\n', [], rfl, by decide⟩)
      simp [hsplit.1, hsplit.2, hn]

/-! ### Walker result extraction -/

theorem walker_result (v : View) (lst : List AssertionLineDetails) (reg : Region)
    (hw : get_details_of_line_being_tested v = .ok (some (lst, reg))) :
    walker_loop v (v.sel.begin + 1) v.sel.begin true [] = some (.ok (lst, reg))
      ∧ is_syntax_test_file v = true := by
  unfold get_details_of_line_being_tested at hw
  by_cases htest : is_syntax_test_file v
  · rw [if_neg (by simp [htest])] at hw
    simp only [] at hw
    refine ⟨?_, htest⟩
    cases hwl : walker_loop v (v.sel.begin + 1) v.sel.begin true [] with
    | none => rw [hwl] at hw; simp at hw
    | some r =>
      rw [hwl] at hw
      cases r with
      | error e => simp at hw
      | ok pr =>
        simp only [Except.ok.injEq, Option.some.injEq] at hw
        rw [hw]
  · rw [if_pos (by simp [Bool.not_eq_true] at htest ⊢; exact htest)] at hw
    simp at hw

theorem walker_top_drop (v : View) (fuel pos : Nat)
    (lst : List AssertionLineDetails) (reg : Region)
    (h : walker_loop v (fuel + 1) pos true [] = some (.ok (lst, reg))) :
    ∀ d ∈ lst.drop 1, d.assertion_colrange.isSome = true := by
  rw [walker_loop] at h
  cases hreg : (get_details_of_test_assertion_line v pos).line_region with
  | none => rw [hreg] at h; simp at h
  | some r =>
    rw [hreg] at h
    simp only at h
    split at h
    · by_cases hb : r.begin = 0
      · rw [if_pos hb] at h
        simp only [Option.some.injEq, Except.ok.injEq, Prod.mk.injEq] at h
        rw [← h.1]
        simp
      · rw [if_neg hb] at h
        obtain ⟨suf, hsuf, hall⟩ := walker_loop_suffix v _ _ _ _ _ h
        rw [hsuf]
        simpa using hall
    · simp only [Option.some.injEq, Except.ok.injEq, Prod.mk.injEq] at h
      rw [← h.1]
      simp

/-- Claim C5: the upward walk appends an assertion-less comment line only as
the very first examined line; on any later iteration a line without an
assertion colrange (comment or not) stops the walk, and the stopping line's
region is the returned tested-line region.  Part one: every collected detail
past the head carries a colrange.  Part two: one step of the loop with
`first = false` on a colrange-less line returns the accumulator and that
line's region. -/
theorem C5_walker_first_iteration :
    (∀ (v : View) (lst : List AssertionLineDetails) (reg : Region),
        get_details_of_line_being_tested v = .ok (some (lst, reg)) →
        ∀ d ∈ lst.drop 1, d.assertion_colrange.isSome = true) ∧
    (∀ (v : View) (fuel pos : Nat) (acc : List AssertionLineDetails) (reg : Region),
        (get_details_of_test_assertion_line v pos).assertion_colrange = none →
        (get_details_of_test_assertion_line v pos).line_region = some reg →
        walker_loop v (fuel + 1) pos false acc = some (.ok (acc, reg))) := by
  constructor
  · intro v lst reg h
    obtain ⟨hwl, -⟩ := walker_result v lst reg h
    exact walker_top_drop v _ _ lst reg hwl
  · intro v fuel pos acc reg hcr hreg
    rw [walker_loop, hreg]
    simp [hcr]

/-- Witness for C5 at a concrete test file whose cursor line `foo` is not a
comment line: a non-first iteration on it stops with its region. -/
theorem C5_walker_first_iteration_witness :
    walker_loop cexViewEmptyRun (6 + 1) 18 false [] = some (.ok ([], ⟨18, 21⟩)) :=
  C5_walker_first_iteration.2 cexViewEmptyRun 6 18 [] ⟨18, 21⟩ (by rfl) (by rfl)

/-- Claim C6: the upward walk always terminates.  Part one: fuel exceeding
the starting position is never exhausted.  Part two: the next examined
position (one before the current line's start) is strictly below the
current one.  Part three: when the current line starts the buffer, the loop
stops (the position would go negative) and returns the just-examined line's
region. -/
theorem C6_walker_terminates :
    (∀ (v : View) (fuel pos : Nat) (first : Bool) (acc : List AssertionLineDetails),
        pos < fuel → (walker_loop v fuel pos first acc).isSome = true) ∧
    (∀ (v : View) (pos : Nat) (reg : Region),
        (get_details_of_test_assertion_line v pos).line_region = some reg →
        1 ≤ reg.begin → reg.begin - 1 < pos) ∧
    (∀ (v : View) (fuel pos : Nat) (first : Bool) (acc : List AssertionLineDetails)
        (reg : Region),
        (get_details_of_test_assertion_line v pos).line_region = some reg →
        ((get_details_of_test_assertion_line v pos).assertion_colrange.isSome
          || (first && (get_details_of_test_assertion_line v pos).comment_marker_match.isSome))
            = true →
        reg.begin = 0 →
        walker_loop v (fuel + 1) pos first acc
          = some (.ok (acc ++ [get_details_of_test_assertion_line v pos], reg))) := by
  refine ⟨walker_loop_isSome, ?_, ?_⟩
  · intro v pos reg hreg hb
    have h1 : reg = lineRegionAt v.text pos := details_line_region v pos reg hreg
    have h2 : reg.begin ≤ pos := by
      rw [h1, lineRegionAt_begin]; exact lineBegin_le v.text pos
    omega
  · intro v fuel pos first acc reg hreg hcond hb
    rw [walker_loop, hreg]
    simp only [hcond, if_true, if_pos hb]

/-- Witness for C6: the walk from position 18 of the concrete test file
completes within fuel 19. -/
theorem C6_walker_terminates_witness :
    (walker_loop cexViewEmptyRun 19 18 true []).isSome = true :=
  C6_walker_terminates.1 cexViewEmptyRun 19 18 true [] (by decide)

/-- Claim C7: on a comment line that begins (after leading whitespace) with
the document's start token, a following `<-` yields the zero-width colrange
at the token's start column; a following caret run of length `n` yields the
colrange spanning exactly those `n` columns offset from the token's end
column (plus the intervening whitespace the regex skips); neither yields a
null colrange.  The start token, coming from the `(\S+)` group, is nonempty
and whitespace-free. -/
theorem C7_assertion_line_parse :
    ∀ (token : String) (ws1 ws2 rest2 : List Char),
      token.data ≠ [] →
      (∀ c ∈ token.data, pyIsSpace c = false) →
      (∀ c ∈ ws1, pyIsSpace c = true) →
      (∀ c ∈ ws2, pyIsSpace c = true) →
      (rest2 = [] ∨ ∃ c t, rest2 = c :: t ∧ pyIsSpace c = false) →
      ((assertion_details_of_line token (ws1 ++ (token.data ++ (ws2 ++ rest2)))).1
          = some (ws1.length, ws1.length + token.length)) ∧
      ((∃ tl, rest2 = '<' :: '-' :: tl) →
        (assertion_details_of_line token (ws1 ++ (token.data ++ (ws2 ++ rest2)))).2
          = some (ws1.length, ws1.length)) ∧
      (∀ (n : Nat) (tl : List Char), 0 < n → rest2 = List.replicate n '^' ++ tl →
        (tl = [] ∨ ∃ c t, tl = c :: t ∧ ¬ c = '^') →
        (assertion_details_of_line token (ws1 ++ (token.data ++ (ws2 ++ rest2)))).2
          = some (ws1.length + token.length + ws2.length,
                  ws1.length + token.length + ws2.length + n)) ∧
      (rest2.take 2 ≠ ['<', '-'] → (rest2 = [] ∨ ∃ c t, rest2 = c :: t ∧ ¬ c = '^') →
        (assertion_details_of_line token (ws1 ++ (token.data ++ (ws2 ++ rest2)))).2
          = none) := by
  intro token ws1 ws2 rest2 htne htns hw1s hw2s hmax
  have key := assertion_details_reduce token ws1 ws2 rest2 htne htns hw1s hw2s hmax
  refine ⟨by rw [key], ?_, ?_, ?_⟩
  · rintro ⟨tl, rfl⟩
    rw [key]
    simp
  · rintro n tl hn rfl htl
    obtain ⟨m, rfl⟩ : ∃ m, n = m + 1 := ⟨n - 1, by omega⟩
    rw [key]
    have htk := takeWhile_split (fun c => c = '^') (List.replicate (m + 1) '^') tl
      (by intro c hc; simp [List.eq_of_mem_replicate hc])
      (by
        rcases htl with rfl | ⟨c, t, rfl, hc⟩
        · exact Or.inl rfl
        · exact Or.inr ⟨c, t, rfl, by simp [hc]⟩)
    rw [if_neg (by simp [List.replicate_succ]), htk.1]
    simp
  · intro hno hcar
    rw [key, if_neg hno]
    rcases hcar with rfl | ⟨c, t, rfl, hc⟩
    · simp
    · rw [List.takeWhile_cons_of_neg (by simp [hc])]
      simp

/-- Witness for C7: the line `# <-` parses to the zero-width colrange at
column 0. -/
theorem C7_assertion_line_parse_witness :
    (assertion_details_of_line "#" ([] ++ (String.data "#" ++ ([' '] ++ ['<', '-'])))).2
      = some (List.length ([] : List Char), List.length ([] : List Char)) :=
  (C7_assertion_line_parse "#" [] [' '] ['<', '-'] (by decide) (by decide) (by decide)
    (by decide) (Or.inr ⟨'<', ['-'], rfl, by decide⟩)).2.1 ⟨[], rfl⟩

/-- Claim C8: the first-line declaration parser returns exactly the start
token and the optional end token for every first line below 1000 characters
of the declaration shape, and `(none, none)` for every other first line
(no match, or 1000 characters and beyond). -/
theorem C8_declaration_tokens :
    ∀ (v : View) (t : List Char) (e : Option (List Char)),
      (get_syntax_test_tokens v = (some (String.mk t), Option.map String.mk e)
        ↔ ((firstLineOf v).length < 1000 ∧ DeclShape (firstLineOf v) t e)) ∧
      ((get_syntax_test_tokens v).1 = none → get_syntax_test_tokens v = (none, none)) ∧
      (¬ ((firstLineOf v).length < 1000 ∧ ∃ t' e', DeclShape (firstLineOf v) t' e') →
        get_syntax_test_tokens v = (none, none)) := by
  intro v t e
  have htok := get_tokens_eq v
  refine ⟨⟨?_, ?_⟩, ?_, ?_⟩
  · intro h
    rw [htok] at h
    by_cases hlen : (firstLineOf v).length < 1000
    · rw [if_pos hlen] at h
      obtain ⟨t', e', h1, h2, hshape⟩ := parse_declaration_sound _ _ _ h
      have ht : t = t' := string_mk_inj h1
      have he : e = e' := option_map_mk_inj h2
      exact ⟨hlen, ht ▸ he ▸ hshape⟩
    · rw [if_neg hlen] at h
      simp at h
  · rintro ⟨hlen, hshape⟩
    rw [htok, if_pos hlen]
    exact parse_declaration_complete _ _ _ hshape
  · intro h1
    rw [htok] at h1 ⊢
    by_cases hlen : (firstLineOf v).length < 1000
    · rw [if_pos hlen] at h1 ⊢
      rcases parse_declaration_cases (firstLineOf v) with hc | ⟨t', e', hc⟩
      · exact hc
      · rw [hc] at h1; simp at h1
    · rw [if_neg hlen]
  · intro hno
    rw [htok]
    by_cases hlen : (firstLineOf v).length < 1000
    · rw [if_pos hlen]
      rcases parse_declaration_cases (firstLineOf v) with hc | ⟨t', e', hc⟩
      · exact hc
      · exfalso
        obtain ⟨t'', e'', -, -, hshape⟩ := parse_declaration_sound _ _ _ hc
        exact hno ⟨hlen, t'', e'', hshape⟩
    · rw [if_neg hlen]

/-- Witness for C8 at the concrete first line `# SYNTAX TEST "x"`. -/
theorem C8_declaration_tokens_witness :
    get_syntax_test_tokens cexViewEmptyRun = (some (String.mk ['#']), none) :=
  (C8_declaration_tokens cexViewEmptyRun ['#'] none).1.mpr
    ⟨by decide,
     ⟨[' '], [' '], [], ['x'], by decide, by decide, by decide, by decide, by decide,
      by decide, by decide, by decide, by decide, by decide⟩⟩

/-- Claim C1 (amended): after the trigger character replaces the selection,
the command silently no-ops — leaving only that inserted character — when
the document is not a syntax-test file; but when the document is a test
file and the collected assertion run is empty, the command raises
`IndexError` on the unguarded `lines[0]` subscript instead of no-opping. -/
theorem C1_suggest_noop_or_error :
    (∀ (v : View) (ch : String),
        is_syntax_test_file (apply_trigger v ch) = false →
        SuggestSyntaxTest.run v ch
          = .ok ((apply_trigger v ch).text, (apply_trigger v ch).sel)) ∧
    (∀ (v : View) (ch : String) (reg : Region),
        get_details_of_line_being_tested (apply_trigger v ch) = .ok (some ([], reg)) →
        SuggestSyntaxTest.run v ch = .error "IndexError") := by
  constructor
  · intro v ch h
    unfold SuggestSyntaxTest.run
    generalize hv : apply_trigger v ch = v1 at h ⊢
    simp only []
    rw [if_pos (by simp [h] : (!(is_syntax_test_file v1)) = true)]
  · intro v ch reg h
    have htest := (walker_result _ _ _ h).2
    unfold SuggestSyntaxTest.run
    generalize hv : apply_trigger v ch = v1 at h htest ⊢
    simp only []
    rw [if_neg (by simp [htest]), h]
    simp only []
    unfold suggest_end_token
    cases he : (get_syntax_test_tokens v1).2 with
    | none => simp [suggest_branch]
    | some t => simp

/-- Counterexample to C1 as stated: on a syntax-test file with the cursor on
the plain code line `foo`, the suggestion command raises `IndexError`
rather than silently no-opping. -/
theorem C1_suggest_counterexample :
    SuggestSyntaxTest.run cexViewEmptyRun "^" = .error "IndexError" := rfl

/-- Witness for C1: on a non-test buffer the command leaves exactly the
inserted trigger character. -/
theorem C1_suggest_noop_or_error_witness :
    SuggestSyntaxTest.run plainView "^"
      = .ok ((apply_trigger plainView "^").text, (apply_trigger plainView "^").sel) :=
  C1_suggest_noop_or_error.1 plainView "^" (by rfl)

/-- Claim C2 (amended): when the shared-scope reduction of step 7 keeps no
component, the command does not complete with an empty scope string: the
unguarded `shared_scopes[0]` subscript raises `IndexError` and nothing is
inserted. -/
theorem C2_shared_scope_empty_errors :
    ∀ (score : String → String → Nat) (base s0 : String) (rest : List String),
      (pySplit s0).filter
          (fun check => (s0 :: rest).all (fun sc => decide (0 < score sc check))) = [] →
      compute_shared_scope score base (s0 :: rest) = .error "IndexError" := by
  intro score base s0 rest h
  simp only [List.all_cons] at h
  simp [compute_shared_scope, h]

/-- Counterexample to C2 as stated: with a selector scorer that returns zero
for every query, the shared-scope set is empty and the command raises
`IndexError` instead of inserting carets with an empty scope string. -/
theorem C2_shared_scope_counterexample :
    SuggestSyntaxTest.run cexViewZeroScore "^" = .error "IndexError" ∧
    (pySplit "source.test").filter
        (fun check => ["source.test"].all
          (fun sc => decide (0 < cexViewZeroScore.scoreSelector sc check))) = [] :=
  ⟨rfl, rfl⟩

/-- Witness for C2. -/
theorem C2_shared_scope_empty_errors_witness :
    compute_shared_scope (fun _ _ => 0) "text.base" ["source.test"]
      = .error "IndexError" :=
  C2_shared_scope_empty_errors (fun _ _ => 0) "text.base" "source.test" [] (by decide)

/-- Claim C3 (amended): starting at a column within the tested line, the
scan computes the length of the maximal contiguous run of positions with
the scope of the start position — but its exclusive bound is
`line.end() + 1`, so the position at the line's end (one past the last
character) is also scanned and may be counted. -/
theorem C3_scan_characterization :
    ∀ (s : Int → String) (line : Region) (col : Int),
      (line.begin : Int) + col ≤ (line.end_ : Int) →
      1 ≤ (suggest_scan s line col false).2 ∧
      (∀ i : Nat, i < (suggest_scan s line col false).2 →
        s ((line.begin : Int) + col + i) = s ((line.begin : Int) + col)) ∧
      ((line.begin : Int) + col + (suggest_scan s line col false).2
          = (line.end_ : Int) + 1
        ∨ s ((line.begin : Int) + col + (suggest_scan s line col false).2)
            ≠ s ((line.begin : Int) + col)) ∧
      (line.begin : Int) + col + (suggest_scan s line col false).2
        ≤ (line.end_ : Int) + 1 := by
  intro s line col h
  rw [suggest_scan_false_eq s line col h]
  simp only []
  have hM : ((((line.end_ : Int) + 1) - ((line.begin : Int) + col)).toNat - 1 : Int)
      = (line.end_ : Int) - ((line.begin : Int) + col) := by omega
  refine ⟨by omega, ?_, ?_, ?_⟩
  · intro i hi
    match i with
    | 0 => simp
    | j + 1 =>
      have hj : j < matchRun s (s ((line.begin : Int) + col))
          ((line.begin : Int) + col + 1)
          ((((line.end_ : Int) + 1) - ((line.begin : Int) + col)).toNat - 1) := by
        omega
      have := matchRun_eq_ref s (s ((line.begin : Int) + col)) _ _ j hj
      have harith : (line.begin : Int) + col + ((j + 1 : Nat) : Int)
          = (line.begin : Int) + col + 1 + (j : Nat) := by push_cast; ring
      rw [harith]
      exact this
  · rcases matchRun_stop s (s ((line.begin : Int) + col))
        ((((line.end_ : Int) + 1) - ((line.begin : Int) + col)).toNat - 1)
        ((line.begin : Int) + col + 1) with he | hne
    · left
      omega
    · right
      have harith : (line.begin : Int) + col
            + ((1 + matchRun s (s ((line.begin : Int) + col))
                ((line.begin : Int) + col + 1)
                ((((line.end_ : Int) + 1) - ((line.begin : Int) + col)).toNat - 1) : Nat) : Int)
          = (line.begin : Int) + col + 1
            + (matchRun s (s ((line.begin : Int) + col))
                ((line.begin : Int) + col + 1)
                ((((line.end_ : Int) + 1) - ((line.begin : Int) + col)).toNat - 1) : Nat) := by
        push_cast; ring
      rw [harith]
      exact hne
  · have := matchRun_le s (s ((line.begin : Int) + col))
        ((((line.end_ : Int) + 1) - ((line.begin : Int) + col)).toNat - 1)
        ((line.begin : Int) + col + 1)
    omega

/-- Counterexample to C3 as stated: on a three-column tested line with a
uniform scope assignment the code computes run length 4 (the scan also
counts the line-end position), while the maximal run of columns within the
line — the length the claim describes, modelled by `claimed_run_length` —
is 3. -/
theorem C3_scan_counterexample :
    (suggest_scan constScope ⟨18, 21⟩ 0 false).2 = 4 ∧
    claimed_run_length constScope ⟨18, 21⟩ 0 = 3 :=
  ⟨rfl, rfl⟩

/-- Witness for C3. -/
theorem C3_scan_characterization_witness :
    1 ≤ (suggest_scan constScope ⟨18, 21⟩ 0 false).2 :=
  (C3_scan_characterization constScope ⟨18, 21⟩ 0 (by decide)).1

/-- Claim C4 (amended): with a zero-width nearest colrange `(c, c)` the scan
starts exactly at column `c`, the nearest line is dropped from the run and
no merge is attempted; the caret-run length is exactly 1 whenever column
`c` lies within the tested line, but when `c` exceeds the tested line's
width the scan is empty (length 0) and the command goes on to raise
`IndexError`. -/
theorem C4_zero_width_branch :
    ∀ (s : Int → String) (line : Region) (c : Nat) (d : AssertionLineDetails)
      (rest : List AssertionLineDetails) (col0 : Int) (scopes : List String),
      d.assertion_colrange = some (c, c) →
      suggest_branch (d :: rest) col0 = .ok ((c : Int), true, rest) ∧
      ((line.begin : Int) + c ≤ (line.end_ : Int) →
        (suggest_scan s line c true).2 = 1) ∧
      ((line.end_ : Int) < (line.begin : Int) + c →
        suggest_scan s line c true = ([], 0)) ∧
      suggest_merge s line rest true scopes = .ok scopes := by
  intro s line c d rest col0 scopes hcr
  refine ⟨?_, ?_, ?_, ?_⟩
  · unfold suggest_branch
    simp [hcr]
  · intro h
    rw [suggest_scan_true_one s line c h]
  · intro h
    exact suggest_scan_true_empty s line c h
  · unfold suggest_merge
    cases rest with
    | nil => rfl
    | cons a b => simp

/-- Counterexample to C4 as stated: a `<-` assertion whose token column (3)
exceeds the two-character tested line `ab` gives caret-run length 0, not 1,
and the command raises `IndexError`. -/
theorem C4_zero_width_counterexample :
    SuggestSyntaxTest.run cexViewShortLine "^" = .error "IndexError" ∧
    suggest_scan constScope ⟨18, 20⟩ 3 true = ([], 0) :=
  ⟨rfl, rfl⟩

/-- Witness for C4. -/
theorem C4_zero_width_branch_witness :
    (suggest_scan constScope ⟨18, 22⟩ 3 true).2 = 1 :=
  (C4_zero_width_branch constScope ⟨18, 22⟩ 3
      ⟨some (0, 1), some (3, 3), some ⟨21, 29⟩⟩ [] 5 [] rfl).2.1 (by decide)

/-- Claim C10: a nearest run line with a comment marker but no assertion
colrange is given the sentinel colrange `(-1, -1)`: the zero-width branch is
taken, the line is dropped from merge processing (and no merge happens),
the caret-run length is forced to 1, and the single reference scope is read
at the position one before the tested line's first character. -/
theorem C10_sentinel_branch :
    ∀ (s : Int → String) (line : Region) (d : AssertionLineDetails)
      (rest : List AssertionLineDetails) (col0 : Int) (scopes : List String)
      (m : Nat × Nat),
      d.comment_marker_match = some m →
      d.assertion_colrange = none →
      suggest_branch (d :: rest) col0 = .ok (-1, true, rest) ∧
      suggest_scan s line (-1) true = ([s ((line.begin : Int) - 1)], 1) ∧
      suggest_merge s line rest true scopes = .ok scopes := by
  intro s line d rest col0 scopes m hm hcr
  refine ⟨?_, ?_, ?_⟩
  · unfold suggest_branch
    simp [hcr]
  · have h : (line.begin : Int) + (-1) ≤ (line.end_ : Int) := by
      have := Region.begin_le_end_ line
      omega
    have hs := suggest_scan_true_one s line (-1) h
    have e : (line.begin : Int) + (-1) = (line.begin : Int) - 1 := by ring
    rw [e] at hs
    exact hs
  · unfold suggest_merge
    cases rest with
    | nil => rfl
    | cons a b => simp

/-- Witness for C10. -/
theorem C10_sentinel_branch_witness :
    suggest_scan constScope ⟨18, 21⟩ (-1) true = ([constScope 17], 1) :=
  (C10_sentinel_branch constScope ⟨18, 21⟩ ⟨some (0, 1), none, some ⟨22, 25⟩⟩ []
      3 [] (0, 1) rfl rfl).2.1

/-- Claim C9 (amended): on a selection change, when an assertion run exists
and the nearest line has a colrange: if the selection is non-empty and its
text matches `^\^+$` — solely carets, where Python's `$` also tolerates one
trailing newline (first conjunct characterizes this) — the highlighted span
is exactly the selection's column span; otherwise it is the nearest
colrange, widened by one column when zero-width; and with no run or no
colrange the highlight is cleared. -/
theorem C9_highlight_projection :
    (∀ cs : List Char, matchAllCarets cs = true ↔
        ∃ n, 0 < n ∧ (cs = List.replicate n '^' ∨ cs = List.replicate n '^' ++ ['\n'])) ∧
    (∀ v : View, get_details_of_line_being_tested v = .ok none →
        HighlightTestViewEventListener.on_selection_modified_async v = .ok none) ∧
    (∀ (v : View) (lines : List AssertionLineDetails) (line : Region),
        get_details_of_line_being_tested v = .ok (some (lines, line)) →
        (lines.head? = none →
          HighlightTestViewEventListener.on_selection_modified_async v = .ok none) ∧
        (∀ l0, lines.head? = some l0 → l0.assertion_colrange = none →
          HighlightTestViewEventListener.on_selection_modified_async v = .ok none) ∧
        (∀ l0 cs ce, lines.head? = some l0 → l0.assertion_colrange = some (cs, ce) →
          (¬ v.sel.begin = v.sel.end_ →
            matchAllCarets (substrOf v.text v.sel) = true →
            HighlightTestViewEventListener.on_selection_modified_async v
              = .ok (some ⟨line.begin + colOf v.text v.sel.begin,
                           line.begin + colOf v.text v.sel.end_⟩)) ∧
          ((v.sel.begin = v.sel.end_ ∨ matchAllCarets (substrOf v.text v.sel) = false) →
            ce = cs →
            HighlightTestViewEventListener.on_selection_modified_async v
              = .ok (some ⟨line.begin + cs, line.begin + (ce + 1)⟩)) ∧
          ((v.sel.begin = v.sel.end_ ∨ matchAllCarets (substrOf v.text v.sel) = false) →
            ¬ ce = cs →
            HighlightTestViewEventListener.on_selection_modified_async v
              = .ok (some ⟨line.begin + cs, line.begin + ce⟩)))) := by
  refine ⟨matchAllCarets_iff, ?_, ?_⟩
  · intro v h
    unfold HighlightTestViewEventListener.on_selection_modified_async
    rw [h]
  · intro v lines line h
    refine ⟨?_, ?_, ?_⟩
    · intro hhead
      unfold HighlightTestViewEventListener.on_selection_modified_async
      rw [h]
      simp only [hhead]
    · intro l0 hhead hcr
      unfold HighlightTestViewEventListener.on_selection_modified_async
      rw [h]
      simp only [hhead, hcr]
    · intro l0 cs ce hhead hcr
      refine ⟨?_, ?_, ?_⟩
      · intro hne hcar
        unfold HighlightTestViewEventListener.on_selection_modified_async
        rw [h]
        simp only [hhead, hcr, if_neg hne, hcar, if_true]
      · intro hor hce
        unfold HighlightTestViewEventListener.on_selection_modified_async
        rw [h]
        simp only [hhead, hcr]
        rcases hor with hemp | hcar
        · simp only [if_pos hemp, Bool.false_eq_true, if_false, if_pos hce]
        · by_cases hemp : v.sel.begin = v.sel.end_
          · simp only [if_pos hemp, Bool.false_eq_true, if_false, if_pos hce]
          · simp only [if_neg hemp, hcar, Bool.false_eq_true, if_false, if_pos hce]
      · intro hor hce
        unfold HighlightTestViewEventListener.on_selection_modified_async
        rw [h]
        simp only [hhead, hcr]
        rcases hor with hemp | hcar
        · simp only [if_pos hemp, Bool.false_eq_true, if_false, if_neg hce]
        · by_cases hemp : v.sel.begin = v.sel.end_
          · simp only [if_pos hemp, Bool.false_eq_true, if_false, if_neg hce]
          · simp only [if_neg hemp, hcar, Bool.false_eq_true, if_false, if_neg hce]

/-- Counterexample to C9 as stated: the selection covering `^` plus the
trailing newline is not made solely of caret characters, yet the highlight
narrows to the selection's column span (here the reversed span 20..18, the
selection ending at column 0 of the next line) instead of the nearest
colrange's span 20..21. -/
theorem C9_highlight_counterexample :
    HighlightTestViewEventListener.on_selection_modified_async cexViewCaretNewline
      = .ok (some ⟨20, 18⟩) ∧
    substrOf cexViewCaretNewline.text cexViewCaretNewline.sel = ['^', '\n'] ∧
    ¬ (∀ c ∈ substrOf cexViewCaretNewline.text cexViewCaretNewline.sel, c = '^') ∧
    (⟨20, 18⟩ : Region) ≠ ⟨20, 21⟩ := by
  refine ⟨rfl, rfl, ?_, by decide⟩
  intro hall
  exact absurd (hall '\n' (by decide)) (by decide)

/-- Witness for C9: a non-test buffer clears the highlight. -/
theorem C9_highlight_projection_witness :
    HighlightTestViewEventListener.on_selection_modified_async plainView = .ok none :=
  C9_highlight_projection.2.1 plainView (by rfl)

end SyntaxTestDev
